import Mathlib

/-!
Shallow embedding of the GraphQL employee-directory service in
`src/app/api/graphql/route.ts`: the result cache, the MongoDB-backed store,
the query and mutation resolvers, Apollo's `formatError`, and the seeding
routine.  Strings are modelled as `List Char`; JavaScript numbers as
rationals extended with `NaN` (the only non-finite value the development
needs); the document store as explicit state passed through each operation.
-/

/-- JavaScript strings, modelled as lists of characters. -/
abbrev Str := List Char

/-- Embed a Lean string literal as a `Str`. -/
def str (s : String) : Str := s.toList

/-- The whitespace characters recognised by `String.prototype.trim`
(restricted to the ASCII whitespace the repository can encounter). -/
def isWs (c : Char) : Bool := c = ' ' || c = '\t' || c = '\n' || c = '\r'

/-- JavaScript `s.trim()`: strip leading and trailing whitespace. -/
def jsTrim (s : Str) : Str :=
  ((s.dropWhile isWs).reverse.dropWhile isWs).reverse

/-- JavaScript numbers as used by the service: a finite value (rational) or
`NaN`.  Salaries in the source are `Float`; every literal the service
compares against is exactly representable, so rationals model the finite
comparisons faithfully, and `nan` models the IEEE rule that every ordered
comparison involving NaN is false. -/
inductive JSNum where
  | nan : JSNum
  | num : ℚ → JSNum
deriving DecidableEq

/-- JavaScript `<` on numbers: false whenever an operand is NaN. -/
def jslt : JSNum → JSNum → Bool
  | .num a, .num b => decide (a < b)
  | _, _ => false

/-- JavaScript `>` on numbers: false whenever an operand is NaN. -/
def jsgt : JSNum → JSNum → Bool
  | .num a, .num b => decide (a > b)
  | _, _ => false

/-- Models `parseFloat(x.toString())` on a JavaScript number: the identity
(doubles round-trip through their decimal string form, and NaN parses
back to NaN). -/
def parseFloatRoundTrip (x : JSNum) : JSNum := x

/-- The lowercase hexadecimal digit for `n % 16`. -/
def hexDigitChar (n : Nat) : Char :=
  if n < 10 then Char.ofNat (48 + n) else Char.ofNat (87 + n)

/-- Hexadecimal characters as accepted by `ObjectId.isValid` on
24-character strings (case-insensitive). -/
def isHexChar (c : Char) : Bool :=
  (decide ('0' ≤ c) && decide (c ≤ '9')) ||
  (decide ('a' ≤ c) && decide (c ≤ 'f')) ||
  (decide ('A' ≤ c) && decide (c ≤ 'F'))

/-- Models `ObjectId.isValid(s)` for a string argument: true for strings of
length 12 (interpreted as 12 bytes) and for 24-character hexadecimal
strings. -/
def isValidObjectId (s : Str) : Bool :=
  decide (s.length = 12) || (decide (s.length = 24) && s.all isHexChar)

/-- Lowercase an uppercase hex letter; other characters unchanged.
Models the case-insensitive byte interpretation of a 24-hex-char
`ObjectId` string. -/
def oidLowerChar (c : Char) : Char :=
  if 65 ≤ c.toNat ∧ c.toNat ≤ 70 then Char.ofNat (c.toNat + 32) else c

/-- The two lowercase hex digits of a byte-sized character code. -/
def hexPairOf (c : Char) : Str :=
  [hexDigitChar (c.toNat / 16 % 16), hexDigitChar (c.toNat % 16)]

/-- Models `new ObjectId(s).toString()`: the canonical (lowercase hexadecimal)
form of the id denoted by `s`.  A 24-character hex string denotes its own
bytes (case-insensitively); a 12-character string denotes its character
codes as 12 bytes.  Stored ids are kept in canonical form, so equality of
canonical forms models `_id` equality at the store. -/
def parseOId (s : Str) : Str :=
  if s.length = 24 then s.map oidLowerChar else (s.map hexPairOf).flatten

/-- The store-assigned id for the `k`-th inserted document: `k` written as
24 lowercase hex digits (big-endian, zero-padded).  Opaque, canonical and
injective below 16^24. -/
def genId (k : Nat) : Str :=
  (List.range 24).map (fun i => hexDigitChar (k / 16 ^ (23 - i) % 16))

-- ## The document store

/-- A document of the `employees` collection.  `views` is optional in the
source (`views?: number`), hence `Option Nat`. -/
structure EmployeeDoc where
  oid : Str
  name : Str
  position : Str
  department : Str
  salary : JSNum
  views : Option Nat
deriving DecidableEq

/-- A document of the `departments` collection. -/
structure DepartmentDoc where
  oid : Str
  name : Str
  floor : Int
deriving DecidableEq

/-- The persistent state: the two collections plus the counter feeding
store-assigned ids. -/
structure StoreState where
  employees : List EmployeeDoc
  departments : List DepartmentDoc
  counter : Nat
deriving DecidableEq

/-- Models `findOne` by `_id` on the `employees` collection: the first
document whose id matches. -/
def findEmp (st : StoreState) (oid : Str) : Option EmployeeDoc :=
  st.employees.find? (fun e => decide (e.oid = oid))

/-- Models `updateOne` with the `$inc` update document: increment `views`
on the first matching document ($inc on a missing field writes the
increment itself, i.e. treats it as 0). -/
def updFirstInc : List EmployeeDoc → Str → List EmployeeDoc
  | [], _ => []
  | e :: rest, oid =>
    if e.oid = oid then
      { e with views := some (e.views.getD 0 + 1) } :: rest
    else
      e :: updFirstInc rest oid

/-- The stored `views` count of the document with id `oid`, reading a
missing field as 0. -/
def viewsOf (st : StoreState) (oid : Str) : Option Nat :=
  (findEmp st oid).map (fun e => e.views.getD 0)

-- ## GraphQL result records

/-- The `Employee` GraphQL object the resolvers return (`views` defaulted
with `?? 0`). -/
structure EmployeeOut where
  id : Str
  name : Str
  position : Str
  department : Str
  salary : JSNum
  views : Nat
deriving DecidableEq

/-- The `Department` GraphQL object. -/
structure DepartmentOut where
  id : Str
  name : Str
  floor : Int
deriving DecidableEq

/-- Project a stored employee document to its GraphQL shape
(`id: emp._id.toString()`, `views: emp.views ?? 0`). -/
def toOut (e : EmployeeDoc) : EmployeeOut :=
  ⟨e.oid, e.name, e.position, e.department, e.salary, e.views.getD 0⟩

/-- MongoDB's ascending string comparison (binary order on character
codes), used by `.sort({ name: 1 })`. -/
def strLe : Str → Str → Bool
  | [], _ => true
  | _ :: _, [] => false
  | a :: as, b :: bs =>
    if a = b then strLe as bs else decide (a.toNat ≤ b.toNat)

/-- Insert into a name-sorted list of employee documents. -/
def insertByName (e : EmployeeDoc) : List EmployeeDoc → List EmployeeDoc
  | [] => [e]
  | x :: xs =>
    if strLe e.name x.name then e :: x :: xs else x :: insertByName e xs

/-- Models the find-all query sorted by name: the collection sorted by name
ascending. -/
def sortByName (l : List EmployeeDoc) : List EmployeeDoc :=
  l.foldr insertByName []

-- ## The result cache (InMemoryLRUCache)

/-- A cached value: the JSON-serialised result stored under a key.
The key namespaces are disjoint, so each key only ever holds the variant
its resolver writes. -/
inductive CVal where
  | emps : List EmployeeOut → CVal
  | emp : EmployeeOut → CVal
  | depts : List DepartmentOut → CVal
deriving DecidableEq

/-- A cache entry: value plus absolute expiry instant (set-time + ttl). -/
structure CEntry where
  val : CVal
  expiry : Nat
deriving DecidableEq

/-- The cache state, newest entry first (an entry for a key shadows older
ones). -/
abbrev Cache := List (Str × CEntry)

/-- First entry stored under a key, if any. -/
def lookupC : Cache → Str → Option CEntry
  | [], _ => none
  | (k', e) :: rest, k => if k' = k then some e else lookupC rest k

/-- Models `getFromCache(key)` at instant `now`: a live entry value, or `none`
on absence or expiry. -/
def getFromCache (c : Cache) (k : Str) (now : Nat) : Option CVal :=
  match lookupC c k with
  | some e => if now < e.expiry then some e.val else none
  | none => none

/-- Models `setInCache(key, data, ttl)` at instant `now`. -/
def setInCache (c : Cache) (k : Str) (v : CVal) (ttl now : Nat) : Cache :=
  (k, ⟨v, now + ttl⟩) :: c

/-- Models `cache.delete(key)`: remove every entry under the key. -/
def cacheDel (c : Cache) (k : Str) : Cache :=
  c.filter (fun p => decide (p.1 ≠ k))

/-- Models `invalidateCache(keys)`: delete each key. -/
def invalidateCache (c : Cache) (ks : List Str) : Cache :=
  ks.foldl cacheDel c

/-- The key `CACHE_KEYS.EMPLOYEES`. -/
def keyEmployees : Str := str "employees:all"

/-- The key `CACHE_KEYS.EMPLOYEE_DETAILS(id)` — note: built from the id string as
given, not from a normalised form. -/
def keyEmployeeDetails (id : Str) : Str := str "employee:" ++ id

/-- The key `CACHE_KEYS.DEPARTMENTS`. -/
def keyDepartments : Str := str "departments:all"

/-- The key `CACHE_KEYS.EMPLOYEES_BY_DEPT(dept)`. -/
def keyEmployeesByDept (dept : Str) : Str := str "employees:dept:" ++ dept

-- ## Resolvers

/-- Resolver `getAllEmployees`: serve from cache key `employees:all` when live,
otherwise read the store sorted by name, project, cache for 5 minutes.
The third component records whether the store was read.  A cached value of
an unexpected variant (impossible in any run, since only this resolver
writes this key) is treated as a miss. -/
def getAllEmployees (now : Nat) (c : Cache) (st : StoreState) :
    List EmployeeOut × Cache × Bool :=
  match getFromCache c keyEmployees now with
  | some (.emps l) => (l, c, false)
  | _ =>
    let result := (sortByName st.employees).map toOut
    (result, setInCache c keyEmployees (.emps result) 300000 now, true)

/-- Resolver `getEmployeeDetails(id)`: reject malformed ids before any lookup,
serve from the per-id cache key when live, otherwise read the store,
failing when absent; cache hits and stored results use the raw `id`
string as key.  Errors carry the message rethrown by the resolver's
catch block. -/
def getEmployeeDetails (now : Nat) (c : Cache) (st : StoreState) (id : Str) :
    Except Str (EmployeeOut × Cache) :=
  if ¬ isValidObjectId id then
    .error (str "Error fetching employee: Invalid employee ID format")
  else
    match getFromCache c (keyEmployeeDetails id) now with
    | some (.emp e) => .ok (e, c)
    | _ =>
      match findEmp st (parseOId id) with
      | none => .error (str "Error fetching employee: Employee not found")
      | some e =>
        let r := toOut e
        .ok (r, setInCache c (keyEmployeeDetails id) (.emp r) 600000 now)

/-- Resolver `getEmployeesByDepartment(department)`: uncached exact-match read. -/
def getEmployeesByDepartment (st : StoreState) (department : Str) :
    List EmployeeOut :=
  (st.employees.filter (fun e => decide (e.department = department))).map toOut

/-- Resolver `getDepartments`: serve from `departments:all` when live, otherwise
read the store sorted by name, cache for 30 minutes. -/
def getDepartments (now : Nat) (c : Cache) (st : StoreState) :
    List DepartmentOut × Cache × Bool :=
  match getFromCache c keyDepartments now with
  | some (.depts l) => (l, c, false)
  | _ =>
    let result := (st.departments.foldr
      (fun d acc => d :: acc) []).map (fun d => ⟨d.oid, d.name, d.floor⟩)
    (result, setInCache c keyDepartments (.depts result) 1800000 now, true)

/-- Resolver `addEmployee(name, position, department, salary)`: validate the four
fields (JS truthiness plus trimmed-length and salary-range checks), insert
the trimmed record with `views: 0` under a fresh store-assigned id,
invalidate `employees:all` and the department key built from the *raw*
`department` argument, and return the created record. -/
def addEmployee (now : Nat) (c : Cache) (st : StoreState)
    (name position department : Str) (salary : JSNum) :
    Except Str (EmployeeOut × Cache × StoreState) :=
  if name.isEmpty || decide ((jsTrim name).length < 2) then
    .error (str "Error adding employee: Name must be at least 2 characters")
  else if position.isEmpty || decide ((jsTrim position).length < 2) then
    .error (str "Error adding employee: Position must be at least 2 characters")
  else if department.isEmpty || decide ((jsTrim department).length = 0) then
    .error (str "Error adding employee: Department is required")
  else if jslt salary (.num 1000) || jsgt salary (.num 1000000) then
    .error
      (str "Error adding employee: Salary must be between $1,000 and $1,000,000")
  else
    let doc : EmployeeDoc :=
      ⟨genId st.counter, jsTrim name, jsTrim position, jsTrim department,
        parseFloatRoundTrip salary, some 0⟩
    let st' : StoreState :=
      { st with employees := st.employees ++ [doc], counter := st.counter + 1 }
    let c' := invalidateCache c [keyEmployees, keyEmployeesByDept department]
    .ok (toOut doc, c', st')

/-- Resolver `incrementView(id)`: trim the id, validate its format, check the
record exists, apply the store-level `$inc`, re-read the record, and
invalidate the per-id key built from the *raw* `id` argument,
`employees:all`, and the department key of the updated record. -/
def incrementView (now : Nat) (c : Cache) (st : StoreState) (id : Str) :
    Except Str (EmployeeOut × Cache × StoreState) :=
  let cleanId := jsTrim id
  if ¬ isValidObjectId cleanId then
    .error (str "Error incrementing view: Invalid employee ID format")
  else
    let oid := parseOId cleanId
    match findEmp st oid with
    | none => .error (str "Error incrementing view: Employee not found")
    | some _ =>
      let st' : StoreState := { st with employees := updFirstInc st.employees oid }
      match findEmp st' oid with
      | none => .error (str "Error incrementing view: Failed to update employee views")
      | some r =>
        let c' := invalidateCache c
          [keyEmployeeDetails id, keyEmployees, keyEmployeesByDept r.department]
        .ok (toOut r, c', st')

/-- Run `incrementView` `n` times sequentially, collecting each call's
returned record. -/
def incrementViewN : Nat → Nat → Cache → StoreState → Str →
    Except Str (List EmployeeOut × Cache × StoreState)
  | 0, _, c, st, _ => .ok ([], c, st)
  | n + 1, now, c, st, id =>
    match incrementView now c st id with
    | .error m => .error m
    | .ok (out, c', st') =>
      match incrementViewN n now c' st' id with
      | .error m => .error m
      | .ok (outs, c'', st'') => .ok (out :: outs, c'', st'')

-- ## Error formatting (Apollo formatError)

/-- A GraphQL error as it reaches `formatError`: message plus the
`extensions.code` field, when one was ever attached.  No code path in the
service attaches one. -/
structure GqlError where
  message : Str
  extCode : Option Str
deriving DecidableEq

/-- An error thrown by a resolver: a plain `Error`, carrying no
`extensions.code`. -/
def resolverError (m : Str) : GqlError := ⟨m, none⟩

/-- The error shape surfaced to the caller. -/
structure SurfacedError where
  message : Str
  code : Str
deriving DecidableEq

/-- Apollo `formatError`: keep the message; take `extensions.code` or default to
`INTERNAL_SERVER_ERROR`. -/
def formatError (e : GqlError) : SurfacedError :=
  ⟨e.message, e.extCode.getD (str "INTERNAL_SERVER_ERROR")⟩

-- ## Seeding

/-- The six seeded employee documents, given the counter value the three
department inserts left behind. -/
def seedEmployees (c : Nat) : List EmployeeDoc :=
  [⟨genId (c + 3), str "Alice Johnson", str "Senior Developer",
      str "Engineering", .num 95000, some 0⟩,
    ⟨genId (c + 4), str "Bob Smith", str "Backend Developer",
      str "Engineering", .num 80000, some 0⟩,
    ⟨genId (c + 5), str "Carol Williams", str "Marketing Manager",
      str "Marketing", .num 75000, some 0⟩,
    ⟨genId (c + 6), str "David Brown", str "Content Strategist",
      str "Marketing", .num 65000, some 0⟩,
    ⟨genId (c + 7), str "Emma Davis", str "HR Director",
      str "Human Resources", .num 85000, some 0⟩,
    ⟨genId (c + 8), str "Frank Miller", str "Frontend Developer",
      str "Engineering", .num 78000, some 0⟩]

/-- The three seeded department documents. -/
def seedDepartments (c : Nat) : List DepartmentDoc :=
  [⟨genId c, str "Engineering", 3⟩,
    ⟨genId (c + 1), str "Marketing", 2⟩,
    ⟨genId (c + 2), str "Human Resources", 1⟩]

/-- Function `seedData`: count both collections; return untouched unless both are
empty, otherwise insert the three departments and six employees. -/
def seedData (st : StoreState) : StoreState :=
  if st.employees.length > 0 || st.departments.length > 0 then st
  else
    { employees := st.employees ++ seedEmployees st.counter,
      departments := st.departments ++ seedDepartments st.counter,
      counter := st.counter + 9 }

-- ## Concurrency model for incrementView

/-- The store-level operations one `incrementView` call issues, in
order: the existence read, the `$inc` update, the read-back. -/
inductive IncOp where
  | checkExists : IncOp
  | incViews : IncOp
  | readBack : IncOp
deriving DecidableEq

/-- Execute one atomic store operation of an `incrementView` call on
id `oid`.  Only the `$inc` changes the store; the two reads do not. -/
def execOp (oid : Str) : IncOp → StoreState → StoreState
  | .incViews, st => { st with employees := updFirstInc st.employees oid }
  | _, st => st

/-- The operation sequence of one `incrementView` call. -/
def incProg : List IncOp := [.checkExists, .incViews, .readBack]

/-- Run two operation sequences under a schedule: each schedule entry
picks which call performs its next atomic store operation (a pick for an
already-finished call does nothing). -/
def runSched (oid : Str) : List Bool → List IncOp → List IncOp → StoreState →
    StoreState
  | [], _, _, st => st
  | true :: rest, [], p2, st => runSched oid rest [] p2 st
  | true :: rest, op :: p1, p2, st => runSched oid rest p1 p2 (execOp oid op st)
  | false :: rest, p1, [], st => runSched oid rest p1 [] st
  | false :: rest, p1, op :: p2, st => runSched oid rest p1 p2 (execOp oid op st)

/-- Number of schedule picks for the first call. -/
def countT : List Bool → Nat
  | [] => 0
  | true :: r => countT r + 1
  | false :: r => countT r

/-- Number of schedule picks for the second call. -/
def countF : List Bool → Nat
  | [] => 0
  | true :: r => countF r
  | false :: r => countF r + 1

/-- Number of `$inc` operations in a sequence. -/
def nInc : List IncOp → Nat
  | [] => 0
  | .incViews :: r => nInc r + 1
  | _ :: r => nInc r

-- ## Cache lemmas

theorem lookupC_set_same (c : Cache) (k : Str) (v : CVal) (ttl now : Nat) :
    lookupC (setInCache c k v ttl now) k = some ⟨v, now + ttl⟩ := by
  simp [setInCache, lookupC]

theorem getFromCache_set_same (c : Cache) (k : Str) (v : CVal) (ttl now t : Nat) :
    getFromCache (setInCache c k v ttl now) k t =
      if t < now + ttl then some v else none := by
  simp [getFromCache, lookupC_set_same]

theorem lookupC_del_self (c : Cache) (k : Str) : lookupC (cacheDel c k) k = none := by
  induction c with
  | nil => rfl
  | cons p rest ih =>
    by_cases h : p.1 = k
    · simpa [cacheDel, h] using ih
    · simpa [cacheDel, lookupC, h] using ih

theorem getFromCache_del_self (c : Cache) (k : Str) (t : Nat) :
    getFromCache (cacheDel c k) k t = none := by
  simp [getFromCache, lookupC_del_self]

theorem lookupC_del_other (c : Cache) (j k : Str) (h : j ≠ k) :
    lookupC (cacheDel c j) k = lookupC c k := by
  induction c with
  | nil => rfl
  | cons p rest ih =>
    by_cases hp : p.1 = j
    · have hk : ¬ p.1 = k := fun hh => h (hp.symm.trans hh)
      have hdel : cacheDel (p :: rest) j = cacheDel rest j := by
        simp [cacheDel, List.filter, hp]
      rw [hdel, ih]
      simp [lookupC, hk]
    · have hdel : cacheDel (p :: rest) j = p :: cacheDel rest j := by
        simp [cacheDel, List.filter, hp]
      rw [hdel]
      simp [lookupC, ih]

/-- Deleting cannot bring an absent or expired key back to life. -/
theorem getFromCache_del_none (c : Cache) (j k : Str) (t : Nat)
    (h : getFromCache c k t = none) : getFromCache (cacheDel c j) k t = none := by
  by_cases hjk : j = k
  · subst hjk; exact getFromCache_del_self c j t
  · simpa [getFromCache, lookupC_del_other c j k hjk] using h

theorem getFromCache_invalidate_none (ks : List Str) (c : Cache) (k : Str) (t : Nat)
    (h : getFromCache c k t = none) :
    getFromCache (invalidateCache c ks) k t = none := by
  induction ks generalizing c with
  | nil => exact h
  | cons j rest ih => exact ih (cacheDel c j) (getFromCache_del_none c j k t h)

/-- An invalidated key reads as a miss afterwards. -/
theorem getFromCache_invalidate_mem (ks : List Str) (c : Cache) (k : Str) (t : Nat)
    (h : k ∈ ks) : getFromCache (invalidateCache c ks) k t = none := by
  induction ks generalizing c with
  | nil => cases h
  | cons j rest ih =>
    rcases List.mem_cons.mp h with hj | hrest
    · subst hj
      exact getFromCache_invalidate_none rest (cacheDel c k) k t
        (getFromCache_del_self c k t)
    · exact ih (cacheDel c j) hrest

-- ## Store lemmas

theorem find?_append_none {p : EmployeeDoc → Bool} {l₁ : List EmployeeDoc}
    (l₂ : List EmployeeDoc) (h : l₁.find? p = none) :
    (l₁ ++ l₂).find? p = l₂.find? p := by
  induction l₁ with
  | nil => rfl
  | cons e rest ih =>
    by_cases hp : p e
    · rw [List.find?_cons_of_pos _ hp] at h
      cases h
    · rw [List.find?_cons_of_neg _ hp] at h
      rw [List.cons_append, List.find?_cons_of_neg _ hp]
      exact ih h

theorem find?_updFirstInc (l : List EmployeeDoc) (oid : Str) (e : EmployeeDoc)
    (h : l.find? (fun x => decide (x.oid = oid)) = some e) :
    (updFirstInc l oid).find? (fun x => decide (x.oid = oid)) =
      some { e with views := some (e.views.getD 0 + 1) } := by
  induction l with
  | nil => cases h
  | cons x rest ih =>
    by_cases hx : x.oid = oid
    · have hd : decide (x.oid = oid) = true := decide_eq_true hx
      simp only [List.find?, hd] at h
      injection h with h
      subst h
      have hupd : updFirstInc (x :: rest) oid =
          { x with views := some (x.views.getD 0 + 1) } :: rest := by
        simp [updFirstInc, hx]
      rw [hupd]
      simp only [List.find?]
      simp [hx]
    · have hd : decide (x.oid = oid) = false := decide_eq_false hx
      simp only [List.find?, hd] at h
      have hupd : updFirstInc (x :: rest) oid = x :: updFirstInc rest oid := by
        simp [updFirstInc, hx]
      rw [hupd]
      simp only [List.find?, hd]
      exact ih h

theorem findEmp_updFirstInc (st : StoreState) (oid : Str) (e : EmployeeDoc)
    (h : findEmp st oid = some e) :
    findEmp { st with employees := updFirstInc st.employees oid } oid =
      some { e with views := some (e.views.getD 0 + 1) } :=
  find?_updFirstInc st.employees oid e h

theorem viewsOf_updFirstInc (st : StoreState) (oid : Str) (e : EmployeeDoc)
    (h : findEmp st oid = some e) :
    viewsOf { st with employees := updFirstInc st.employees oid } oid =
      some (e.views.getD 0 + 1) := by
  simp [viewsOf, findEmp_updFirstInc st oid e h]

theorem mem_insertByName (a e : EmployeeDoc) (l : List EmployeeDoc) :
    a ∈ insertByName e l ↔ a = e ∨ a ∈ l := by
  induction l with
  | nil => simp [insertByName]
  | cons x xs ih =>
    by_cases h : strLe e.name x.name
    · simp [insertByName, h]
    · simp [insertByName, h, ih]
      tauto

theorem mem_sortByName (a : EmployeeDoc) (l : List EmployeeDoc) :
    a ∈ sortByName l ↔ a ∈ l := by
  induction l with
  | nil => simp [sortByName]
  | cons x xs ih =>
    simp only [sortByName, List.foldr] at ih ⊢
    rw [mem_insertByName, ih, List.mem_cons]

-- ## genId and ObjectId lemmas

theorem hexDigitChar_hex : ∀ n < 16, isHexChar (hexDigitChar n) = true := by decide

theorem hexDigitChar_lower : ∀ n < 16, oidLowerChar (hexDigitChar n) = hexDigitChar n := by
  decide

theorem genId_length (k : Nat) : (genId k).length = 24 := by simp [genId]

theorem genId_all_hex (k : Nat) : ∀ c ∈ genId k, isHexChar c = true := by
  intro c hc
  simp only [genId, List.mem_map] at hc
  obtain ⟨i, _, rfl⟩ := hc
  exact hexDigitChar_hex _ (Nat.mod_lt _ (by norm_num))

theorem isValidObjectId_genId (k : Nat) : isValidObjectId (genId k) = true := by
  rw [isValidObjectId, genId_length]
  simp only [Bool.or_eq_true, Bool.and_eq_true, decide_eq_true_eq, List.all_eq_true]
  exact Or.inr ⟨by trivial, genId_all_hex k⟩

theorem parseOId_genId (k : Nat) : parseOId (genId k) = genId k := by
  rw [parseOId, if_pos (genId_length k), genId, List.map_map]
  refine List.map_congr_left fun i _ => ?_
  exact hexDigitChar_lower _ (Nat.mod_lt _ (by norm_num))

-- ## Trim lemmas

theorem isHexChar_not_ws (c : Char) (h : isHexChar c = true) : isWs c = false := by
  by_contra hne
  have hw : isWs c = true := by
    cases hx : isWs c
    · exact absurd hx hne
    · rfl
  simp only [isWs, Bool.or_eq_true, decide_eq_true_eq] at hw
  rcases hw with ((h1 | h1) | h1) | h1 <;> subst h1 <;> revert h <;> decide

theorem dropWhile_ws_append (w t : Str) (hw : ∀ c ∈ w, isWs c = true) :
    List.dropWhile isWs (w ++ t) = List.dropWhile isWs t := by
  induction w with
  | nil => rfl
  | cons a w ih =>
    rw [List.cons_append, List.dropWhile_cons_of_pos (hw a (List.mem_cons_self a w))]
    exact ih fun c hc => hw c (List.mem_cons_of_mem a hc)

theorem dropWhile_ws_all (w : Str) (hw : ∀ c ∈ w, isWs c = true) :
    List.dropWhile isWs w = [] := by
  induction w with
  | nil => rfl
  | cons a w ih =>
    rw [List.dropWhile_cons_of_pos (hw a (List.mem_cons_self a w))]
    exact ih fun c hc => hw c (List.mem_cons_of_mem a hc)

theorem dropWhile_ws_id (t : Str) (ht : ∀ c ∈ t, isWs c = false) :
    List.dropWhile isWs t = t := by
  cases t with
  | nil => rfl
  | cons a t =>
    exact List.dropWhile_cons_of_neg
      (by rw [ht a (List.mem_cons_self a t)]; exact Bool.false_ne_true)

/-- Trimming a string that is non-whitespace text surrounded by whitespace
recovers the text. -/
theorem jsTrim_pad (w₁ w₂ s : Str) (hw₁ : ∀ c ∈ w₁, isWs c = true)
    (hw₂ : ∀ c ∈ w₂, isWs c = true) (hs : ∀ c ∈ s, isWs c = false) :
    jsTrim (w₁ ++ s ++ w₂) = s := by
  rw [jsTrim, List.append_assoc, dropWhile_ws_append _ _ hw₁]
  cases s with
  | nil =>
    simp [dropWhile_ws_all w₂ hw₂]
  | cons a s =>
    rw [List.cons_append,
      List.dropWhile_cons_of_neg
        (by rw [hs a (List.mem_cons_self a s)]; exact Bool.false_ne_true),
      ← List.cons_append, List.reverse_append,
      dropWhile_ws_append _ _ (fun c hc => hw₂ c (List.mem_reverse.mp hc)),
      dropWhile_ws_id _ (fun c hc => hs c (List.mem_reverse.mp hc)),
      List.reverse_reverse]

/-- A string of non-whitespace characters trims to itself. -/
theorem jsTrim_id (s : Str) (hs : ∀ c ∈ s, isWs c = false) : jsTrim s = s := by
  have := jsTrim_pad [] [] s (by intro c hc; cases hc) (by intro c hc; cases hc) hs
  simpa using this

-- ## The successful incrementView call

/-- A successful `incrementView`: structure of the result when the trimmed
id is well-formed and names an existing document. -/
theorem incrementView_ok (now : Nat) (c : Cache) (st : StoreState) (id : Str)
    (e : EmployeeDoc) (hv : isValidObjectId (jsTrim id) = true)
    (hf : findEmp st (parseOId (jsTrim id)) = some e) :
    incrementView now c st id =
      .ok (toOut { e with views := some (e.views.getD 0 + 1) },
        invalidateCache c
          [keyEmployeeDetails id, keyEmployees,
            keyEmployeesByDept e.department],
        { st with employees := updFirstInc st.employees (parseOId (jsTrim id)) }) := by
  have hf' := findEmp_updFirstInc st (parseOId (jsTrim id)) e hf
  simp only [incrementView, hv, Bool.true_eq_false, not_true_eq_false, if_false, hf, hf']

-- ## Concrete fixtures

/-- A canonical 24-hex-character id. -/
def aId : Str := List.replicate 24 'a'

/-- A concrete stored employee with zero views. -/
def alice : EmployeeDoc :=
  ⟨aId, str "Alice Johnson", str "Senior Developer", str "Engineering",
    .num 95000, some 0⟩

/-- A store holding just `alice`. -/
def stA : StoreState := ⟨[alice], [], 0⟩

/-- The empty store. -/
def stEmpty : StoreState := ⟨[], [], 0⟩

-- ## seedData helper lemmas

theorem seedData_of_empty (st : StoreState) (h1 : st.employees = [])
    (h2 : st.departments = []) :
    seedData st =
      { employees := seedEmployees st.counter,
        departments := seedDepartments st.counter,
        counter := st.counter + 9 } := by
  simp [seedData, h1, h2]

theorem seedData_of_nonempty (st : StoreState)
    (h : st.employees ≠ [] ∨ st.departments ≠ []) : seedData st = st := by
  rcases h with h | h
  · have h1 : 0 < st.employees.length := List.length_pos.mpr h
    simp [seedData, h1]
  · have h2 : 0 < st.departments.length := List.length_pos.mpr h
    simp [seedData, h2]

/-- Claim C7: seed data — 3 departments and 6 employees, each with
`views = 0` — is inserted only when both collections are empty; a
connection made when either collection is non-empty performs no reseed;
and seeding is idempotent (it happens exactly once). -/
theorem c7_seedData_exactly_once (st : StoreState) :
    (st.employees = [] → st.departments = [] →
      (seedData st).departments.length = 3 ∧
      (seedData st).employees.length = 6 ∧
      ∀ e ∈ (seedData st).employees, e.views = some 0) ∧
    (st.employees ≠ [] ∨ st.departments ≠ [] → seedData st = st) ∧
    seedData (seedData st) = seedData st := by
  refine ⟨?_, seedData_of_nonempty st, ?_⟩
  · intro h1 h2
    rw [seedData_of_empty st h1 h2]
    refine ⟨by simp [seedDepartments], by simp [seedEmployees], ?_⟩
    intro e he
    simp only [seedEmployees, List.mem_cons, List.not_mem_nil, or_false] at he
    rcases he with rfl | rfl | rfl | rfl | rfl | rfl <;> rfl
  · by_cases h1 : st.employees = []
    · by_cases h2 : st.departments = []
      · rw [seedData_of_empty st h1 h2]
        apply seedData_of_nonempty
        left
        simp [seedEmployees]
      · rw [seedData_of_nonempty st (Or.inr h2), seedData_of_nonempty st (Or.inr h2)]
    · rw [seedData_of_nonempty st (Or.inl h1), seedData_of_nonempty st (Or.inl h1)]

/-- Witness for C7 at the empty store: first connection seeds 3
departments and 6 employees, all views 0; reseeding is a no-op. -/
theorem c7_witness :
    (seedData stEmpty).departments.length = 3 ∧
    (seedData stEmpty).employees.length = 6 ∧
    (∀ e ∈ (seedData stEmpty).employees, e.views = some 0) ∧
    seedData (seedData stEmpty) = seedData stEmpty := by
  obtain ⟨hA, _, hC⟩ := c7_seedData_exactly_once stEmpty
  obtain ⟨h3, h6, hv⟩ := hA rfl rfl
  exact ⟨h3, h6, hv, hC⟩

/-- Claim C6: with the `employees:all` key absent (or expired) at the
first call, a repeat `getAllEmployees` within the five-minute TTL window
and with no intervening mutation returns the identical result, leaves the
cache unchanged, and does not read the store: only the first call does. -/
theorem c6_getAllEmployees_cached (now now' : Nat) (c : Cache) (st : StoreState)
    (hmiss : getFromCache c keyEmployees now = none)
    (hwin : now' < now + 300000) :
    (getAllEmployees now c st).2.2 = true ∧
    getAllEmployees now' (getAllEmployees now c st).2.1 st =
      ((getAllEmployees now c st).1, (getAllEmployees now c st).2.1, false) := by
  have h1 : getAllEmployees now c st =
      ((sortByName st.employees).map toOut,
        setInCache c keyEmployees (.emps ((sortByName st.employees).map toOut))
          300000 now,
        true) := by
    simp only [getAllEmployees, hmiss]
  rw [h1]
  refine ⟨rfl, ?_⟩
  simp only [getAllEmployees, getFromCache_set_same, if_pos hwin]

/-- Witness for C6: a cold cache over the one-employee store; the second
call at t=1 is a cache hit. -/
theorem c6_witness :
    (getAllEmployees 0 [] stA).2.2 = true ∧
    getAllEmployees 1 (getAllEmployees 0 [] stA).2.1 stA =
      ((getAllEmployees 0 [] stA).1, (getAllEmployees 0 [] stA).2.1, false) :=
  c6_getAllEmployees_cached 0 1 [] stA rfl (by norm_num)

-- ## addEmployee with fixed valid strings: only the salary gate remains

/-- With the valid inputs name "Jane Doe", position "Engineer" and
department "Engineering", `addEmployee` reduces to its salary check. -/
theorem addEmployee_jane (now : Nat) (c : Cache) (st : StoreState) (salary : JSNum) :
    addEmployee now c st (str "Jane Doe") (str "Engineer") (str "Engineering")
        salary =
      if (jslt salary (.num 1000) || jsgt salary (.num 1000000)) = true then
        .error
          (str "Error adding employee: Salary must be between $1,000 and $1,000,000")
      else
        .ok
          (⟨genId st.counter, str "Jane Doe", str "Engineer", str "Engineering",
              salary, 0⟩,
            invalidateCache c [keyEmployees, keyEmployeesByDept (str "Engineering")],
            { st with
                employees := st.employees ++
                  [⟨genId st.counter, str "Jane Doe", str "Engineer",
                      str "Engineering", salary, some 0⟩],
                counter := st.counter + 1 }) := rfl

/-- Claim C4: with the other fields valid, salary 999 fails with the
validation error, 1000 and 1000000 succeed, 1000001 fails; and on finite
numbers the range check accepts exactly 1000 ≤ salary ≤ 1000000. -/
theorem c4_salary_range_boundaries :
    (∀ q : ℚ,
      (jslt (.num q) (.num 1000) || jsgt (.num q) (.num 1000000)) = false ↔
        1000 ≤ q ∧ q ≤ 1000000) ∧
    addEmployee 0 [] stEmpty (str "Jane Doe") (str "Engineer")
        (str "Engineering") (.num 999) =
      .error
        (str "Error adding employee: Salary must be between $1,000 and $1,000,000") ∧
    (∃ out c' st',
      addEmployee 0 [] stEmpty (str "Jane Doe") (str "Engineer")
          (str "Engineering") (.num 1000) = .ok (out, c', st') ∧
        out.salary = .num 1000) ∧
    (∃ out c' st',
      addEmployee 0 [] stEmpty (str "Jane Doe") (str "Engineer")
          (str "Engineering") (.num 1000000) = .ok (out, c', st') ∧
        out.salary = .num 1000000) ∧
    addEmployee 0 [] stEmpty (str "Jane Doe") (str "Engineer")
        (str "Engineering") (.num 1000001) =
      .error
        (str "Error adding employee: Salary must be between $1,000 and $1,000,000") := by
  refine ⟨?_, ?_, ?_, ?_, ?_⟩
  · intro q
    simp [jslt, jsgt, not_lt]
  · rw [addEmployee_jane]
    rfl
  · refine ⟨⟨genId stEmpty.counter, str "Jane Doe", str "Engineer",
      str "Engineering", .num 1000, 0⟩,
      invalidateCache [] [keyEmployees, keyEmployeesByDept (str "Engineering")],
      { stEmpty with
          employees := stEmpty.employees ++
            [⟨genId stEmpty.counter, str "Jane Doe", str "Engineer",
                str "Engineering", .num 1000, some 0⟩],
          counter := stEmpty.counter + 1 }, ?_, rfl⟩
    rw [addEmployee_jane]
    rfl
  · refine ⟨⟨genId stEmpty.counter, str "Jane Doe", str "Engineer",
      str "Engineering", .num 1000000, 0⟩,
      invalidateCache [] [keyEmployees, keyEmployeesByDept (str "Engineering")],
      { stEmpty with
          employees := stEmpty.employees ++
            [⟨genId stEmpty.counter, str "Jane Doe", str "Engineer",
                str "Engineering", .num 1000000, some 0⟩],
          counter := stEmpty.counter + 1 }, ?_, rfl⟩
    rw [addEmployee_jane]
    rfl
  · rw [addEmployee_jane]
    rfl

/-- The documented salary range, as a predicate on JavaScript numbers. -/
def jsInRange (v : JSNum) : Prop :=
  ∃ q : ℚ, v = .num q ∧ 1000 ≤ q ∧ q ≤ 1000000

/-- Claim C9: the salary validation raises an error exactly when
`salary < 1000 || salary > 1000000` evaluates true; for NaN both
comparisons are false, so `addEmployee` accepts it and writes and returns
a record whose salary is NaN, outside the documented range. -/
theorem c9_nan_salary_accepted :
    (∀ (now : Nat) (c : Cache) (st : StoreState) (salary : JSNum),
      (∃ m, addEmployee now c st (str "Jane Doe") (str "Engineer")
          (str "Engineering") salary = .error m) ↔
        (jslt salary (.num 1000) || jsgt salary (.num 1000000)) = true) ∧
    (∀ (now : Nat) (c : Cache) (st : StoreState),
      addEmployee now c st (str "Jane Doe") (str "Engineer") (str "Engineering")
          .nan =
        .ok
          (⟨genId st.counter, str "Jane Doe", str "Engineer", str "Engineering",
              .nan, 0⟩,
            invalidateCache c [keyEmployees, keyEmployeesByDept (str "Engineering")],
            { st with
                employees := st.employees ++
                  [⟨genId st.counter, str "Jane Doe", str "Engineer",
                      str "Engineering", .nan, some 0⟩],
                counter := st.counter + 1 })) ∧
    ¬ jsInRange .nan := by
  refine ⟨?_, ?_, ?_⟩
  · intro now c st salary
    rw [addEmployee_jane]
    constructor
    · rintro ⟨m, hm⟩
      by_cases h : (jslt salary (.num 1000) || jsgt salary (.num 1000000)) = true
      · exact h
      · rw [if_neg h] at hm
        cases hm
    · intro h
      rw [if_pos h]
      exact ⟨_, rfl⟩
  · intro now c st
    rw [addEmployee_jane]
    rfl
  · rintro ⟨q, hq, -⟩
    cases hq

-- ## Error surfacing (C5)

/-- A second canonical 24-hex id, absent from `stA`. -/
def bId : Str := List.replicate 24 'b'

/-- The surfaced message for a malformed id in `getEmployeeDetails`. -/
def msgInvalidId : Str := str "Error fetching employee: Invalid employee ID format"

/-- The surfaced message for a missing employee in `getEmployeeDetails`. -/
def msgEmpNotFound : Str := str "Error fetching employee: Employee not found"

/-- Counterexample to claim C5: on the malformed id "not-a-valid-id" and on
the well-formed but nonexistent id `bId`, `getEmployeeDetails` fails with
two different messages, but the two surfaced errors carry the *same*
machine-readable code (the resolver throws plain errors, so `formatError`
defaults both to INTERNAL_SERVER_ERROR): the two cases are not
distinguished by the code. -/
theorem c5_counterexample :
    getEmployeeDetails 0 [] stA (str "not-a-valid-id") = .error msgInvalidId ∧
    getEmployeeDetails 0 [] stA bId = .error msgEmpNotFound ∧
    (formatError (resolverError msgInvalidId)).code =
      (formatError (resolverError msgEmpNotFound)).code ∧
    msgInvalidId ≠ msgEmpNotFound := by
  exact ⟨rfl, rfl, rfl, by decide⟩

/-- Claim C5, amended: every surfaced error carries a message and a code;
`getEmployeeDetails` on a malformed identifier fails with the
invalid-format message and on a well-formed but nonexistent identifier
fails with the not-found message; the two messages differ, but both
surfaced errors carry the identical code INTERNAL_SERVER_ERROR, so the
cases are distinguished only by the message text, not by the code. -/
theorem c5_error_codes (now : Nat) (c : Cache) (st : StoreState) (id₁ id₂ : Str)
    (h1 : isValidObjectId id₁ = false)
    (h2 : isValidObjectId id₂ = true)
    (h2c : getFromCache c (keyEmployeeDetails id₂) now = none)
    (h2f : findEmp st (parseOId id₂) = none) :
    getEmployeeDetails now c st id₁ = .error msgInvalidId ∧
    getEmployeeDetails now c st id₂ = .error msgEmpNotFound ∧
    (∀ m, (formatError (resolverError m)).message = m ∧
      (formatError (resolverError m)).code = str "INTERNAL_SERVER_ERROR") ∧
    (formatError (resolverError msgInvalidId)).code =
      (formatError (resolverError msgEmpNotFound)).code ∧
    msgInvalidId ≠ msgEmpNotFound := by
  refine ⟨?_, ?_, fun m => ⟨rfl, rfl⟩, rfl, by decide⟩
  · rw [getEmployeeDetails, if_pos (by simp [h1])]
    rfl
  · rw [getEmployeeDetails, if_neg (by simp [h2])]
    simp only [h2c, h2f]
    rfl

/-- Witness for C5 (amended) at the concrete store `stA`, malformed id
"not-a-valid-id" and nonexistent id `bId`. -/
theorem c5_witness :
    getEmployeeDetails 0 [] stA (str "not-a-valid-id") = .error msgInvalidId ∧
    getEmployeeDetails 0 [] stA bId = .error msgEmpNotFound ∧
    (∀ m, (formatError (resolverError m)).message = m ∧
      (formatError (resolverError m)).code = str "INTERNAL_SERVER_ERROR") ∧
    (formatError (resolverError msgInvalidId)).code =
      (formatError (resolverError msgEmpNotFound)).code ∧
    msgInvalidId ≠ msgEmpNotFound :=
  c5_error_codes 0 [] stA (str "not-a-valid-id") bId (by decide) (by decide) rfl
    (by decide)

-- ## Id validity helper lemmas (C10)

theorem isValidObjectId_of_hex24 (s : Str) (hlen : s.length = 24)
    (hhex : ∀ ch ∈ s, isHexChar ch = true) : isValidObjectId s = true := by
  rw [isValidObjectId, hlen]
  simp only [Bool.or_eq_true, Bool.and_eq_true, decide_eq_true_eq, List.all_eq_true]
  exact Or.inr ⟨by trivial, hhex⟩

theorem isValidObjectId_false_of_length (s : Str) (h12 : s.length ≠ 12)
    (h24 : s.length ≠ 24) : isValidObjectId s = false := by
  simp [isValidObjectId, h12, h24]

/-- Claim C10: `incrementView` trims its id before format validation while
`getEmployeeDetails` validates the raw string: for a 24-hex id string `s`
naming an existing record, the same string padded with (non-empty)
surrounding whitespace succeeds in `incrementView` but fails
`getEmployeeDetails` with the invalid-identifier error. -/
theorem c10_incrementView_trims_getDetails_does_not (now : Nat) (c : Cache)
    (st : StoreState) (s w₁ w₂ : Str) (e : EmployeeDoc)
    (hlen : s.length = 24) (hhex : ∀ ch ∈ s, isHexChar ch = true)
    (hw₁ : ∀ ch ∈ w₁, isWs ch = true) (hw₂ : ∀ ch ∈ w₂, isWs ch = true)
    (hpad : w₁ ≠ [] ∨ w₂ ≠ [])
    (hf : findEmp st (parseOId s) = some e) :
    (∃ out c' st', incrementView now c st (w₁ ++ s ++ w₂) = .ok (out, c', st')) ∧
    getEmployeeDetails now c st (w₁ ++ s ++ w₂) =
      .error (str "Error fetching employee: Invalid employee ID format") := by
  have htrim : jsTrim (w₁ ++ s ++ w₂) = s :=
    jsTrim_pad w₁ w₂ s hw₁ hw₂ fun ch hc => isHexChar_not_ws ch (hhex ch hc)
  have hvs : isValidObjectId s = true := isValidObjectId_of_hex24 s hlen hhex
  constructor
  · refine ⟨_, _, _, incrementView_ok now c st (w₁ ++ s ++ w₂) e ?_ ?_⟩
    · rw [htrim]; exact hvs
    · rw [htrim]; exact hf
  · have hlenpad : (w₁ ++ s ++ w₂).length = w₁.length + 24 + w₂.length := by
      simp [hlen]
      omega
    have hone : 0 < w₁.length ∨ 0 < w₂.length := by
      rcases hpad with h | h
      · exact Or.inl (List.length_pos.mpr h)
      · exact Or.inr (List.length_pos.mpr h)
    have hbad : isValidObjectId (w₁ ++ s ++ w₂) = false := by
      apply isValidObjectId_false_of_length <;> rw [hlenpad] <;> omega
    rw [getEmployeeDetails, if_pos (by rw [hbad]; exact Bool.false_ne_true)]

/-- Witness for C10: `aId` padded with one leading space over the store
`stA`. -/
theorem c10_witness :
    (∃ out c' st',
      incrementView 0 [] stA ([' '] ++ aId ++ []) = .ok (out, c', st')) ∧
    getEmployeeDetails 0 [] stA ([' '] ++ aId ++ []) =
      .error (str "Error fetching employee: Invalid employee ID format") :=
  c10_incrementView_trims_getDetails_does_not 0 [] stA aId [' '] [] alice
    (by decide) (by decide) (by decide) (by decide) (Or.inl (by decide)) (by decide)

-- ## Sequential incrementView (C1)

theorem incrementViewN_spec (N now : Nat) (c : Cache) (st : StoreState)
    (id : Str) (e : EmployeeDoc)
    (hv : isValidObjectId (jsTrim id) = true)
    (hf : findEmp st (parseOId (jsTrim id)) = some e) :
    ∃ c' st',
      incrementViewN N now c st id =
        .ok ((List.range N).map
            (fun i => toOut { e with views := some (e.views.getD 0 + (i + 1)) }),
          c', st') ∧
      viewsOf st' (parseOId (jsTrim id)) = some (e.views.getD 0 + N) := by
  induction N generalizing c st e with
  | zero => exact ⟨c, st, rfl, by simp [viewsOf, hf]⟩
  | succ n ih =>
    have hstep := incrementView_ok now c st id e hv hf
    have hf1 : findEmp
        { st with employees := updFirstInc st.employees (parseOId (jsTrim id)) }
        (parseOId (jsTrim id)) = some { e with views := some (e.views.getD 0 + 1) } :=
      findEmp_updFirstInc st _ e hf
    obtain ⟨c', st', hrun, hviews⟩ := ih
      (invalidateCache c
        [keyEmployeeDetails id, keyEmployees, keyEmployeesByDept e.department])
      { st with employees := updFirstInc st.employees (parseOId (jsTrim id)) }
      { e with views := some (e.views.getD 0 + 1) } hf1
    refine ⟨c', st', ?_, ?_⟩
    · simp only [incrementViewN, hstep, hrun]
      have hmap :
          (List.range (n + 1)).map
              (fun i => toOut { e with views := some (e.views.getD 0 + (i + 1)) }) =
            toOut { e with views := some (e.views.getD 0 + 1) } ::
              (List.range n).map
                (fun i => toOut { { e with views := some (e.views.getD 0 + 1) } with
                  views := some (({ e with views := some (e.views.getD 0 + 1) }
                    : EmployeeDoc).views.getD 0 + (i + 1)) }) := by
        rw [List.range_succ_eq_map, List.map_cons, List.map_map]
        refine congrArg _ ?_
        refine List.map_congr_left fun i _ => ?_
        show toOut { e with views := some (e.views.getD 0 + (i + 1 + 1)) } =
          toOut { e with views := some (e.views.getD 0 + 1 + (i + 1)) }
        have harith : e.views.getD 0 + (i + 1 + 1) = e.views.getD 0 + 1 + (i + 1) := by
          omega
        rw [harith]
      rw [hmap]
    · rw [hviews]
      show some (e.views.getD 0 + 1 + n) = some (e.views.getD 0 + (n + 1))
      have harith : e.views.getD 0 + 1 + n = e.views.getD 0 + (n + 1) := by omega
      rw [harith]

/-- Claim C1: for an existing employee id, calling `incrementView` N times
sequentially increases the stored `views` by exactly N and each call
returns the post-increment record; for a well-formed id with no matching
record, `incrementView` fails with the not-found error (raised by the
existence read performed before the increment). -/
theorem c1_incrementView_sequential (N now : Nat) (c : Cache) (st : StoreState)
    (id : Str) :
    (∀ e, isValidObjectId (jsTrim id) = true →
      findEmp st (parseOId (jsTrim id)) = some e →
      ∃ c' st',
        incrementViewN N now c st id =
          .ok ((List.range N).map
              (fun i => toOut { e with views := some (e.views.getD 0 + (i + 1)) }),
            c', st') ∧
        viewsOf st' (parseOId (jsTrim id)) = some (e.views.getD 0 + N)) ∧
    (isValidObjectId (jsTrim id) = true →
      findEmp st (parseOId (jsTrim id)) = none →
      incrementView now c st id =
        .error (str "Error incrementing view: Employee not found")) := by
  constructor
  · intro e hv hf
    exact incrementViewN_spec N now c st id e hv hf
  · intro hv hnone
    simp only [incrementView, hv, Bool.true_eq_false, not_true_eq_false, if_false,
      hnone]

/-- Witness for C1: two sequential increments on `alice` in `stA`, and the
not-found failure on the absent id `bId`. -/
theorem c1_witness :
    (∃ c' st',
      incrementViewN 2 0 [] stA aId =
        .ok ((List.range 2).map
            (fun i => toOut { alice with views := some (alice.views.getD 0 + (i + 1)) }),
          c', st') ∧
      viewsOf st' (parseOId (jsTrim aId)) = some (alice.views.getD 0 + 2)) ∧
    incrementView 0 [] stA bId =
      .error (str "Error incrementing view: Employee not found") :=
  ⟨(c1_incrementView_sequential 2 0 [] stA aId).1 alice (by decide) (by decide),
    (c1_incrementView_sequential 2 0 [] stA bId).2 (by decide) (by decide)⟩

-- ## Concurrency (C8)

theorem runSched_viewsOf (oid : Str) (sched : List Bool) (p1 p2 : List IncOp)
    (st : StoreState) (v : Nat) (hv : viewsOf st oid = some v)
    (h1 : p1.length ≤ countT sched) (h2 : p2.length ≤ countF sched) :
    viewsOf (runSched oid sched p1 p2 st) oid = some (v + nInc p1 + nInc p2) := by
  induction sched generalizing p1 p2 st v with
  | nil =>
    have e1 : p1 = [] := List.eq_nil_of_length_eq_zero (Nat.le_zero.mp h1)
    have e2 : p2 = [] := List.eq_nil_of_length_eq_zero (Nat.le_zero.mp h2)
    subst e1
    subst e2
    simpa [runSched, nInc] using hv
  | cons b rest ih =>
    cases b
    · cases p2 with
      | nil =>
        rw [show runSched oid (false :: rest) p1 [] st =
          runSched oid rest p1 [] st from rfl]
        exact ih p1 [] st v hv (by simpa [countT] using h1) (by simp [nInc])
      | cons op p2' =>
        have h2' : p2'.length ≤ countF rest := by
          simp only [countF] at h2
          simpa [List.length_cons] using h2
        cases op with
        | checkExists =>
          rw [show runSched oid (false :: rest) p1 (IncOp.checkExists :: p2') st =
            runSched oid rest p1 p2' st from rfl]
          exact ih p1 p2' st v hv (by simpa [countT] using h1) h2'
        | readBack =>
          rw [show runSched oid (false :: rest) p1 (IncOp.readBack :: p2') st =
            runSched oid rest p1 p2' st from rfl]
          exact ih p1 p2' st v hv (by simpa [countT] using h1) h2'
        | incViews =>
          obtain ⟨e, hfe, hev⟩ := Option.map_eq_some'.mp hv
          have hv1 : viewsOf { st with employees := updFirstInc st.employees oid }
              oid = some (v + 1) := by
            rw [viewsOf_updFirstInc st oid e hfe, hev]
          rw [show runSched oid (false :: rest) p1 (IncOp.incViews :: p2') st =
            runSched oid rest p1 p2'
              { st with employees := updFirstInc st.employees oid } from rfl]
          have := ih p1 p2'
            { st with employees := updFirstInc st.employees oid } (v + 1) hv1
            (by simpa [countT] using h1) h2'
          rw [this]
          have harith : v + 1 + nInc p1 + nInc p2' =
              v + nInc p1 + (nInc p2' + 1) := by omega
          rw [harith]
          rfl
    · cases p1 with
      | nil =>
        rw [show runSched oid (true :: rest) [] p2 st =
          runSched oid rest [] p2 st from rfl]
        exact ih [] p2 st v hv (by simp) (by simpa [countF] using h2)
      | cons op p1' =>
        have h1' : p1'.length ≤ countT rest := by
          simp only [countT] at h1
          simpa [List.length_cons] using h1
        cases op with
        | checkExists =>
          rw [show runSched oid (true :: rest) (IncOp.checkExists :: p1') p2 st =
            runSched oid rest p1' p2 st from rfl]
          exact ih p1' p2 st v hv h1' (by simpa [countF] using h2)
        | readBack =>
          rw [show runSched oid (true :: rest) (IncOp.readBack :: p1') p2 st =
            runSched oid rest p1' p2 st from rfl]
          exact ih p1' p2 st v hv h1' (by simpa [countF] using h2)
        | incViews =>
          obtain ⟨e, hfe, hev⟩ := Option.map_eq_some'.mp hv
          have hv1 : viewsOf { st with employees := updFirstInc st.employees oid }
              oid = some (v + 1) := by
            rw [viewsOf_updFirstInc st oid e hfe, hev]
          rw [show runSched oid (true :: rest) (IncOp.incViews :: p1') p2 st =
            runSched oid rest p1' p2
              { st with employees := updFirstInc st.employees oid } from rfl]
          have := ih p1' p2
            { st with employees := updFirstInc st.employees oid } (v + 1) hv1 h1'
            (by simpa [countF] using h2)
          rw [this]
          have harith : v + 1 + nInc p1' + nInc p2 =
              v + (nInc p1' + 1) + nInc p2 := by omega
          rw [harith]
          rfl

/-- Claim C8: two concurrent `incrementView` calls on the same existing id
are both reflected in the stored counter under every interleaving of their
store-level operations, because the only state change each call makes is
the single atomic `$inc` at the store (no read-modify-write in the
service). -/
theorem c8_no_lost_updates (sched : List Bool) (st : StoreState) (oid : Str)
    (v : Nat) (hv : viewsOf st oid = some v)
    (h1 : 3 ≤ countT sched) (h2 : 3 ≤ countF sched) :
    viewsOf (runSched oid sched incProg incProg st) oid = some (v + 2) := by
  have h := runSched_viewsOf oid sched incProg incProg st v hv
    (by simpa [incProg] using h1) (by simpa [incProg] using h2)
  simpa [incProg, nInc] using h

/-- Witness for C8: the sequential schedule of the two calls over `stA`. -/
theorem c8_witness :
    viewsOf (runSched aId [true, true, true, false, false, false]
      incProg incProg stA) aId = some (0 + 2) :=
  c8_no_lost_updates [true, true, true, false, false, false] stA aId 0
    (by decide) (by decide) (by decide)

-- ## Round trip (C3)

/-- Claim C3: for every valid input, `addEmployee` succeeds and
`getEmployeeDetails` on the returned id yields exactly the created record:
same (trimmed) name, position and department, same salary, and
`views = 0`.  The freshness and cache hypotheses say the store-assigned id
is new and not already cached, which every run of the service satisfies. -/
theorem c3_addEmployee_roundTrip (now now' : Nat) (c : Cache) (st : StoreState)
    (name position department : Str) (salary : JSNum)
    (hname : (name.isEmpty || decide ((jsTrim name).length < 2)) = false)
    (hpos : (position.isEmpty || decide ((jsTrim position).length < 2)) = false)
    (hdept : (department.isEmpty || decide ((jsTrim department).length = 0)) = false)
    (hsal : (jslt salary (.num 1000) || jsgt salary (.num 1000000)) = false)
    (hfresh : findEmp st (genId st.counter) = none)
    (hcache : getFromCache c (keyEmployeeDetails (genId st.counter)) now' = none) :
    ∃ out c₁ st₁ c₂,
      addEmployee now c st name position department salary = .ok (out, c₁, st₁) ∧
      getEmployeeDetails now' c₁ st₁ out.id = .ok (out, c₂) ∧
      out.id = genId st.counter ∧
      out.name = jsTrim name ∧ out.position = jsTrim position ∧
      out.department = jsTrim department ∧ out.salary = salary ∧ out.views = 0 := by
  have hadd : addEmployee now c st name position department salary =
      .ok (toOut ⟨genId st.counter, jsTrim name, jsTrim position,
          jsTrim department, salary, some 0⟩,
        invalidateCache c [keyEmployees, keyEmployeesByDept department],
        { st with
            employees := st.employees ++
              [⟨genId st.counter, jsTrim name, jsTrim position,
                  jsTrim department, salary, some 0⟩],
            counter := st.counter + 1 }) := by
    rw [addEmployee, if_neg (by rw [hname]; exact Bool.false_ne_true),
      if_neg (by rw [hpos]; exact Bool.false_ne_true),
      if_neg (by rw [hdept]; exact Bool.false_ne_true),
      if_neg (by rw [hsal]; exact Bool.false_ne_true)]
    rfl
  have hcache' : getFromCache
      (invalidateCache c [keyEmployees, keyEmployeesByDept department])
      (keyEmployeeDetails (genId st.counter)) now' = none :=
    getFromCache_invalidate_none _ c _ now' hcache
  have hfind : findEmp
      { st with
          employees := st.employees ++
            [⟨genId st.counter, jsTrim name, jsTrim position,
                jsTrim department, salary, some 0⟩],
          counter := st.counter + 1 }
      (parseOId (genId st.counter)) =
      some ⟨genId st.counter, jsTrim name, jsTrim position,
        jsTrim department, salary, some 0⟩ := by
    rw [parseOId_genId]
    show (st.employees ++ _).find? _ = _
    rw [find?_append_none _ hfresh]
    simp [List.find?]
  have hged : getEmployeeDetails now'
      (invalidateCache c [keyEmployees, keyEmployeesByDept department])
      { st with
          employees := st.employees ++
            [⟨genId st.counter, jsTrim name, jsTrim position,
                jsTrim department, salary, some 0⟩],
          counter := st.counter + 1 }
      (genId st.counter) =
      .ok (toOut ⟨genId st.counter, jsTrim name, jsTrim position,
          jsTrim department, salary, some 0⟩,
        setInCache (invalidateCache c [keyEmployees, keyEmployeesByDept department])
          (keyEmployeeDetails (genId st.counter))
          (.emp (toOut ⟨genId st.counter, jsTrim name, jsTrim position,
            jsTrim department, salary, some 0⟩)) 600000 now') := by
    rw [getEmployeeDetails, if_neg (by simp [isValidObjectId_genId])]
    simp only [hcache', hfind]
  exact ⟨_, _, _, _, hadd, hged, rfl, rfl, rfl, rfl, rfl, rfl⟩

/-- Witness for C3: the spec's example input over the empty store. -/
theorem c3_witness :
    ∃ out c₁ st₁ c₂,
      addEmployee 0 [] stEmpty (str "Jane Doe") (str "Engineer")
          (str "Engineering") (.num 90000) = .ok (out, c₁, st₁) ∧
      getEmployeeDetails 0 c₁ st₁ out.id = .ok (out, c₂) ∧
      out.id = genId stEmpty.counter ∧
      out.name = jsTrim (str "Jane Doe") ∧
      out.position = jsTrim (str "Engineer") ∧
      out.department = jsTrim (str "Engineering") ∧
      out.salary = .num 90000 ∧ out.views = 0 :=
  c3_addEmployee_roundTrip 0 0 [] stEmpty (str "Jane Doe") (str "Engineer")
    (str "Engineering") (.num 90000) (by decide) (by decide) (by decide)
    (by decide) (by decide) rfl

-- ## Mutation/cache consistency (C2)

/-- A successful `addEmployee`: structure of the result when all four
validations pass. -/
theorem addEmployee_ok (now : Nat) (c : Cache) (st : StoreState)
    (name position department : Str) (salary : JSNum)
    (hname : (name.isEmpty || decide ((jsTrim name).length < 2)) = false)
    (hpos : (position.isEmpty || decide ((jsTrim position).length < 2)) = false)
    (hdept : (department.isEmpty || decide ((jsTrim department).length = 0)) = false)
    (hsal : (jslt salary (.num 1000) || jsgt salary (.num 1000000)) = false) :
    addEmployee now c st name position department salary =
      .ok (toOut ⟨genId st.counter, jsTrim name, jsTrim position,
          jsTrim department, salary, some 0⟩,
        invalidateCache c [keyEmployees, keyEmployeesByDept department],
        { st with
            employees := st.employees ++
              [⟨genId st.counter, jsTrim name, jsTrim position,
                  jsTrim department, salary, some 0⟩],
            counter := st.counter + 1 }) := by
  rw [addEmployee, if_neg (by rw [hname]; exact Bool.false_ne_true),
    if_neg (by rw [hpos]; exact Bool.false_ne_true),
    if_neg (by rw [hdept]; exact Bool.false_ne_true),
    if_neg (by rw [hsal]; exact Bool.false_ne_true)]
  rfl

/-- Claim C2, amended: `addEmployee` invalidates `employees:all`, so the
next `getAllEmployees` always includes the new employee; and when the id
argument of `incrementView` equals its trimmed form — which holds for
every id a client echoes back from the service — the mutation invalidates
the per-id key it used, so an immediately following `getEmployeeDetails`
on that id returns the post-increment record.  (When the id is padded
with whitespace, the per-id invalidation misses the trimmed key: see the
counterexample.) -/
theorem c2_mutations_invalidate :
    (∀ (now now' : Nat) (c : Cache) (st : StoreState)
      (name position department : Str) (salary : JSNum),
      (name.isEmpty || decide ((jsTrim name).length < 2)) = false →
      (position.isEmpty || decide ((jsTrim position).length < 2)) = false →
      (department.isEmpty || decide ((jsTrim department).length = 0)) = false →
      (jslt salary (.num 1000) || jsgt salary (.num 1000000)) = false →
      ∃ out c₁ st₁,
        addEmployee now c st name position department salary =
          .ok (out, c₁, st₁) ∧
        out ∈ (getAllEmployees now' c₁ st₁).1) ∧
    (∀ (now now' : Nat) (c : Cache) (st : StoreState) (id : Str)
      (e : EmployeeDoc),
      jsTrim id = id →
      isValidObjectId id = true →
      findEmp st (parseOId id) = some e →
      ∃ out c₁ st₁ c₂,
        incrementView now c st id = .ok (out, c₁, st₁) ∧
        getEmployeeDetails now' c₁ st₁ id = .ok (out, c₂) ∧
        out.views = e.views.getD 0 + 1) := by
  constructor
  · intro now now' c st name position department salary hname hpos hdept hsal
    refine ⟨_, _, _, addEmployee_ok now c st name position department salary
      hname hpos hdept hsal, ?_⟩
    have hmiss : getFromCache
        (invalidateCache c [keyEmployees, keyEmployeesByDept department])
        keyEmployees now' = none :=
      getFromCache_invalidate_mem _ c _ now' (by simp)
    have hga : (getAllEmployees now'
        (invalidateCache c [keyEmployees, keyEmployeesByDept department])
        { st with
            employees := st.employees ++
              [⟨genId st.counter, jsTrim name, jsTrim position,
                  jsTrim department, salary, some 0⟩],
            counter := st.counter + 1 }).1 =
        (sortByName (st.employees ++
          [⟨genId st.counter, jsTrim name, jsTrim position,
              jsTrim department, salary, some 0⟩])).map toOut := by
      simp only [getAllEmployees, hmiss]
    rw [hga]
    exact List.mem_map_of_mem toOut ((mem_sortByName _ _).mpr
      (List.mem_append_right _ (List.mem_singleton.mpr rfl)))
  · intro now now' c st id e hT hvalid hf
    have hv' : isValidObjectId (jsTrim id) = true := by rw [hT]; exact hvalid
    have hf' : findEmp st (parseOId (jsTrim id)) = some e := by rw [hT]; exact hf
    have hstep := incrementView_ok now c st id e hv' hf'
    rw [hT] at hstep
    refine ⟨toOut { e with views := some (e.views.getD 0 + 1) },
      invalidateCache c
        [keyEmployeeDetails id, keyEmployees, keyEmployeesByDept e.department],
      { st with employees := updFirstInc st.employees (parseOId id) },
      setInCache
        (invalidateCache c
          [keyEmployeeDetails id, keyEmployees, keyEmployeesByDept e.department])
        (keyEmployeeDetails id)
        (.emp (toOut { e with views := some (e.views.getD 0 + 1) })) 600000 now',
      hstep, ?_, rfl⟩
    have hmiss : getFromCache
        (invalidateCache c
          [keyEmployeeDetails id, keyEmployees, keyEmployeesByDept e.department])
        (keyEmployeeDetails id) now' = none :=
      getFromCache_invalidate_mem _ c _ now' (by simp)
    have hfind : findEmp
        { st with employees := updFirstInc st.employees (parseOId id) }
        (parseOId id) = some { e with views := some (e.views.getD 0 + 1) } :=
      findEmp_updFirstInc st _ e hf
    rw [getEmployeeDetails, if_neg (by simp [hvalid])]
    simp only [hmiss, hfind]

/-- The cache after `getEmployeeDetails` on `aId` at t=0 over `stA`. -/
def cacheA : Cache :=
  setInCache [] (keyEmployeeDetails aId) (.emp (toOut alice)) 600000 0

/-- The record `alice` after one view increment. -/
def aliceInc : EmployeeDoc := { alice with views := some 1 }

/-- The store after the increment. -/
def stAInc : StoreState := { stA with employees := [aliceInc] }

/-- Counterexample to claim C2: read `alice` (caching it under
`employee:aId`), then call `incrementView` with the whitespace-padded id
`' ' :: aId`.  The call succeeds and bumps the stored counter to 1, but it
invalidates the per-id key built from the *raw* padded id, so the entry
under the trimmed key survives, and a `getEmployeeDetails` on `aId`
immediately after — well within the TTL window — returns the pre-mutation
record with `views = 0` while the store holds `views = 1`. -/
theorem c2_counterexample :
    getEmployeeDetails 0 [] stA aId = .ok (toOut alice, cacheA) ∧
    incrementView 0 cacheA stA (' ' :: aId) = .ok (toOut aliceInc, cacheA, stAInc) ∧
    viewsOf stAInc aId = some 1 ∧
    getEmployeeDetails 0 cacheA stAInc aId = .ok (toOut alice, cacheA) ∧
    (toOut alice).views = 0 :=
  ⟨rfl, rfl, rfl, rfl, rfl⟩

/-- Witness for C2 (amended): add "Jane Doe" over the one-employee store
with an arbitrary live cache entry, and increment `alice` with the exact
(unpadded) id. -/
theorem c2_witness :
    (∃ out c₁ st₁,
      addEmployee 0 [] stA (str "Jane Doe") (str "Engineer")
          (str "Engineering") (.num 90000) = .ok (out, c₁, st₁) ∧
      out ∈ (getAllEmployees 0 c₁ st₁).1) ∧
    (∃ out c₁ st₁ c₂,
      incrementView 0 cacheA stA aId = .ok (out, c₁, st₁) ∧
      getEmployeeDetails 0 c₁ st₁ aId = .ok (out, c₂) ∧
      out.views = alice.views.getD 0 + 1) :=
  ⟨c2_mutations_invalidate.1 0 0 [] stA (str "Jane Doe") (str "Engineer")
      (str "Engineering") (.num 90000) (by decide) (by decide) (by decide)
      (by decide),
    c2_mutations_invalidate.2 0 0 cacheA stA aId alice (by decide) (by decide)
      (by decide)⟩
